import Mathlib

/-!
Verification of the Fuse fuzzy-search orchestrator (`src/index.js`).

This file shallowly embeds the `Fuse` class: the `_search` driver (flat string
collections, structured records, key/weight handling, the recursive
child-collection branch), `_analyze` (full-text and tokenized field analysis),
`_computeScore` (weighted aggregation), `_sort` and `_format`.

The Bitap matcher (`src/bitap`) and the helpers (`deep_value`, `is_array`,
`highlighter`) are external collaborators of this module; a searcher is
modelled abstractly as a function from candidate text to a `MatchOutcome`,
exactly the interface `_analyze` consumes (`searcher.search(text)`).

Modelling conventions:
* JS numbers are modelled as rationals (`ℚ`).
* JS `undefined`/`null` are explicit `JsVal` constructors.
* the `verbose` logging and the `highlight` post-processing pass (external
  helper, explicitly out of core scope in the design) are omitted; all
  claims run with highlighting disabled (its default).
* unbounded JS recursion (`_search` calling itself on child collections, and
  `_analyze` recursing into array-valued fields) is modelled with an explicit
  depth budget (`fuel`); the input data is acyclic, so any budget at least
  the nesting depth reproduces the JS behaviour.
-/

/-- A JavaScript value, as far as the orchestrator inspects one. -/
inductive JsVal where
  | undefined : JsVal
  | null : JsVal
  | bool : Bool → JsVal
  | num : ℚ → JsVal
  | str : String → JsVal
  | arr : List JsVal → JsVal
  | obj : List (String × JsVal) → JsVal
deriving Repr

/-- Outcome of one matcher run: `{ isMatch, score, matchedIndices }`
(spec §3 `MatchOutcome`; produced by `bitapSearcher.search(text)`). -/
structure MatchOutcome where
  isMatch : Bool
  score : ℚ
  matchedIndices : List (Nat × Nat)
deriving Repr

/-- A matcher instance, abstracting a constructed `new Bitap(pattern, options)`:
all the orchestrator ever does with one is call `.search(text)`. -/
structure Searcher where
  search : String → MatchOutcome

/-- One per-field match outcome pushed into `result.output`
(`{ key, score, matchedIndices }` in `_analyze`). -/
structure FieldResult where
  key : String
  score : ℚ
  matchedIndices : List (Nat × Nat)
deriving Repr

/-- One per-record accumulated result (`resultMap[index]` entries:
`{ item, output }`, with `score` attached later by `_computeScore`;
`score := none` models the property being absent before that). -/
structure RecordResult where
  item : JsVal
  output : List FieldResult
  score : Option ℚ
deriving Repr

/-- The mutable accumulation of `_search`: `resultMap` keyed by record index,
plus the insertion order of `results` (every entry of the JS `results` array
is `resultMap[i]` for some `i`, so we keep the indices in order). -/
structure SearchState where
  resultMap : List (Nat × RecordResult)
  order : List Nat
deriving Repr

/-- A configured search key: either a plain string, or an object
`{ name, weight }` (the `typeof key !== 'string'` case in `_search`). -/
inductive KeySpec where
  | plain : String → KeySpec
  | weighted : String → ℚ → KeySpec
deriving Repr

/-- The ways a `search` call can fail in this model: the
`throw new Error('Key weight has to be > 0 and <= 1')` in `_search`,
or exhaustion of the explicit recursion budget (a modelling artifact;
JS recursion is unbounded). -/
inductive FuseErr where
  | invalidWeight : FuseErr
  | outOfFuel : FuseErr
deriving Repr, DecidableEq

/-- Matches metadata attached by the `includeMatches` transformer in
`_format` (`key` is omitted when falsy, i.e. the empty string). -/
structure MatchData where
  indices : List (Nat × Nat)
  key : Option String
deriving Repr

/-- One element of `_format`'s `finalOutput`: the bare item when no
transformer is active, else the `{ item, matches?, score? }` data object. -/
inductive FormattedItem where
  | plain : JsVal → FormattedItem
  | data : JsVal → Option (List MatchData) → Option ℚ → FormattedItem
deriving Repr

/-- What `_search` returns: the flat-string branch early-returns the raw
`{ weights: null, results }` object; the structured branch returns
`this._format(results)`. The two shapes are distinct JS values. -/
inductive SearchOutput where
  | raw : List RecordResult → SearchOutput
  | formatted : List FormattedItem → SearchOutput
deriving Repr

/-- The option fields the orchestrator itself reads. The Bitap-only options
(`location`, `distance`, `threshold`, `maxPatternLength`, `caseSensitive`,
`findAllMatches`, `minMatchCharLength`) live inside the abstract `Searcher`.
`keys` (`this.options.keys`) is passed alongside this record.
`splitF` is the split induced by `tokenSeparator` (a configurable regex);
`getF` is the configurable nested-value accessor (`getFn`, default
`deepValue`). -/
structure Options where
  tokenize : Bool
  matchAllTokens : Bool
  shouldSort : Bool
  includeMatches : Bool
  includeScore : Bool
  id : Option String
  getF : JsVal → String → JsVal
  splitF : String → List String
  recursiveEnabled : Bool
  recursiveKey : String

/-- Direct property access `value[key]` on an object (absent gives
`undefined`). -/
def objGet (v : JsVal) (k : String) : JsVal :=
  match v with
  | .obj fields =>
    match fields.find? (fun p => p.1 = k) with
    | some p => p.2
    | none => .undefined
  | _ => .undefined

/-- Split a path on `'.'` (JS `path.split('.')`: every dot is a delimiter,
empty segments preserved). -/
def splitDotsAux : List Char → String → List String
  | [], cur => [cur]
  | c :: rest, cur =>
    if c = '.' then cur :: splitDotsAux rest ""
    else splitDotsAux rest (cur.push c)

/-- Modelled from the spec: the external nested-value accessor `deepValue`
(`src/helpers/deep_value`, not under the core source): `get(record,
dotted_or_bracket_path) -> value | absent`, resolving each dotted segment
in turn. -/
def deepValue (v : JsVal) (path : String) : JsVal :=
  (splitDotsAux path.toList "").foldl (fun acc seg => objGet acc seg) v

/-- Split on runs of spaces, the default `tokenSeparator = / +/g` semantics of
`String.prototype.split`: maximal space runs are delimiters, and leading or
trailing runs produce empty tokens (`" a ".split(/ +/) = ["", "a", ""]`). -/
def splitSpacesAux : List Char → String → Bool → List String
  | [], cur, _ => [cur]
  | c :: rest, cur, inRun =>
    if c = ' ' then
      if inRun then splitSpacesAux rest cur true
      else cur :: splitSpacesAux rest "" true
    else splitSpacesAux rest (cur.push c) false

/-- JS `s.split(/ +/)`. -/
def splitSpaces (s : String) : List String :=
  splitSpacesAux s.toList "" false

/-- Default options of the constructor (`tokenize = false`,
`matchAllTokens = false`, `shouldSort = true`, `includeMatches = false`,
`includeScore = false`, `id = null`, `getFn = deepValue`,
`tokenSeparator = / +/g`, `recursive = { enabled: false }`). -/
def defaultOptions : Options where
  tokenize := false
  matchAllTokens := false
  shouldSort := true
  includeMatches := false
  includeScore := false
  id := none
  getF := deepValue
  splitF := splitSpaces
  recursiveEnabled := false
  recursiveKey := ""

/-- Look up `resultMap[i]`. -/
def rmGet (m : List (Nat × RecordResult)) (i : Nat) : Option RecordResult :=
  (m.find? (fun p => p.1 = i)).map (fun p => p.2)

/-- Assign `resultMap[i] = r` (newest binding shadows older ones). -/
def rmSet (m : List (Nat × RecordResult)) (i : Nat) (r : RecordResult) :
    List (Nat × RecordResult) :=
  (i, r) :: m

/-- The empty accumulation state (`const resultMap = {}`,
`const results = []`). -/
def initState : SearchState := ⟨[], []⟩

/-- The contribution one `(tokenSearcher, word)` pair pushes into `scores` in
`_analyze`: a matching pair pushes its score; a non-matching pair pushes the
full penalty `1`, except under `matchAllTokens` where it pushes nothing. -/
def pairContrib (o : Options) (t : Searcher) (w : String) : Option ℚ :=
  let r := t.search w
  if r.isMatch then some r.score
  else if o.matchAllTokens then none else some 1

/-- Inner loop of `_analyze`'s tokenized branch for one `tokenSearcher`:
walks the field's `words`, returning `hasMatchInText` and the scores pushed
(in order). -/
def tokenScanOne (o : Options) (t : Searcher) (words : List String) :
    Bool × List ℚ :=
  words.foldl
    (fun acc w =>
      let r := t.search w
      if r.isMatch then (true, acc.2 ++ [r.score])
      else (acc.1, if o.matchAllTokens then acc.2 else acc.2 ++ [1]))
    (false, [])

/-- Outer loop of `_analyze`'s tokenized branch over all `tokenSearchers`:
returns the accumulated `scores` list, `numTextMatches`, and the `exists`
flag. -/
def tokenScan (o : Options) (ts : List Searcher) (words : List String) :
    List ℚ × Nat × Bool :=
  ts.foldl
    (fun acc t =>
      let one := tokenScanOne o t words
      (acc.1 ++ one.2, acc.2.1 + (if one.1 then 1 else 0), acc.2.2 || one.1))
    ([], 0, false)

/-- The clean per-pair description of the `scores` list `_analyze`
accumulates: one contribution per `(tokenSearcher, word)` pair, in loop
order. -/
def tokenContribs (o : Options) (ts : List Searcher) (words : List String) :
    List ℚ :=
  ts.flatMap (fun t => words.filterMap (pairContrib o t))

/-- The string case of `_analyze`: run the full-text searcher, optionally the
token scan, derive `finalScore`, and (when the match condition and the
`matchAllTokens` check pass) append the field result to `resultMap[index]` /
`results`. `averageScore` is `none` where JS holds `-1` untouched (not
tokenizing) or `NaN` (empty `scores`); neither passes the `> -1` test. -/
def analyzeString (o : Options) (ts : List Searcher) (fs : Searcher)
    (key : String) (record : JsVal) (index : Nat) (value : String)
    (st : SearchState) : SearchState :=
  let mainR := fs.search value
  let scanned := if o.tokenize then tokenScan o ts (o.splitF value)
                 else ([], 0, false)
  let scores := scanned.1
  let numTextMatches := scanned.2.1
  let ex := scanned.2.2
  let averageScore : Option ℚ :=
    if o.tokenize then
      match scores with
      | [] => none
      | _ :: _ => some (scores.sum / (scores.length : ℚ))
    else none
  let finalScore : ℚ :=
    match averageScore with
    | some a => if -1 < a then (mainR.score + a) / 2 else mainR.score
    | none => mainR.score
  let check : Bool :=
    if o.tokenize && o.matchAllTokens then numTextMatches ≥ ts.length
    else true
  if (ex || mainR.isMatch) && check then
    match rmGet st.resultMap index with
    | some existing =>
      { st with
        resultMap := rmSet st.resultMap index
          { existing with
            output := existing.output ++
              [⟨key, finalScore, mainR.matchedIndices⟩] } }
    | none =>
      { resultMap := rmSet st.resultMap index
          ⟨record, [⟨key, finalScore, mainR.matchedIndices⟩], none⟩,
        order := st.order ++ [index] }
  else st

/-- `_analyze`: missing values (`undefined`/`null`) are skipped; strings are
analyzed; arrays are recursed into element by element under the same key and
index; anything else falls through silently. `af` is the array-recursion
budget. -/
def analyzeVal : Nat → Options → List Searcher → Searcher → String → JsVal →
    Nat → JsVal → SearchState → SearchState
  | 0, _, _, _, _, _, _, _, st => st
  | af + 1, o, ts, fs, key, record, index, value, st =>
    match value with
    | .str s => analyzeString o ts fs key record index s st
    | .arr l =>
      l.foldl (fun st v => analyzeVal af o ts fs key record index v st) st
    | _ => st

/-- `weights[key.name] = { weight: (1 - key.weight) || 1 }`: the stored
weight is `1 - weight` unless that is `0` (falsy), in which case `1`. -/
def storedWeight (w : ℚ) : ℚ := if 1 - w = 0 then 1 else 1 - w

/-- Update the weights map at one key. -/
def wset (w : String → ℚ) (k : String) (v : ℚ) : String → ℚ :=
  fun k' => if k' = k then v else w k'

/-- The initial weights object is `{}`; the aggregation only ever looks up
keys registered by `_search`, so the default value is unreachable there. -/
def initWeights : String → ℚ := fun _ => 1

/-- Processing of one configured key for one record in `_search`'s key loop:
register the weight (string keys get weight `1`, object keys get
`(1 - weight) || 1`), reject out-of-range declared weights
(`throw new Error('Key weight has to be > 0 and <= 1')`), then `_analyze`
the value fetched through `getFn`. -/
def processKey (o : Options) (ts : List Searcher) (fs : Searcher) (af : Nat)
    (item : JsVal) (i : Nat) (acc : (String → ℚ) × SearchState)
    (k : KeySpec) : Except FuseErr ((String → ℚ) × SearchState) :=
  match k with
  | .weighted name wt =>
    let w := wset acc.1 name (storedWeight wt)
    if wt ≤ 0 || wt > 1 then .error .invalidWeight
    else .ok (w, analyzeVal af o ts fs name item i (o.getF item name) acc.2)
  | .plain name =>
    .ok (wset acc.1 name 1,
      analyzeVal af o ts fs name item i (o.getF item name) acc.2)

/-- The key loop of `_search` for one record. -/
def keysLoop (o : Options) (keys : List KeySpec) (ts : List Searcher)
    (fs : Searcher) (af : Nat) (item : JsVal) (i : Nat)
    (acc : (String → ℚ) × SearchState) :
    Except FuseErr ((String → ℚ) × SearchState) :=
  keys.foldlM (fun acc k => processKey o ts fs af item i acc k) acc

/-- `Object.assign({}, base, { [k]: v })`: a fresh object agreeing with
`base` everywhere except that `k` now maps to `v` (replaced in place when
present, appended otherwise). Records reaching this in the claims are
objects; the catch-all mirrors only the override. -/
def objAssignKey : JsVal → String → JsVal → JsVal
  | .obj fields, k, v =>
    if fields.any (fun p => p.1 = k) then
      .obj (fields.map (fun p => if p.1 = k then (p.1, v) else p))
    else .obj (fields ++ [(k, v)])
  | _, k, v => .obj [(k, v)]

/-- Matches metadata as a JS value (used when child results are spliced into
a parent object). -/
def matchDataToJs (m : MatchData) : JsVal :=
  .obj ([("indices",
    .arr (m.indices.map (fun p => .arr [.num p.1, .num p.2])))] ++
    (match m.key with | some k => [("key", .str k)] | none => []))

/-- A formatted output element as a JS value. -/
def formattedItemToJs : FormattedItem → JsVal
  | .plain v => v
  | .data item mdata sc =>
    .obj ([("item", item)] ++
      (match mdata with
       | some ms => [("matches", .arr (ms.map matchDataToJs))]
       | none => []) ++
      (match sc with
       | some q => [("score", .num q)]
       | none => []))

/-- A raw field result as a JS value. -/
def fieldResultToJs (fr : FieldResult) : JsVal :=
  .obj [("key", .str fr.key), ("score", .num fr.score),
    ("matchedIndices",
      .arr (fr.matchedIndices.map (fun p => .arr [.num p.1, .num p.2])))]

/-- A raw record result as a JS value. -/
def recordResultToJs (r : RecordResult) : JsVal :=
  .obj ([("item", r.item),
    ("output", .arr (r.output.map fieldResultToJs))] ++
    (match r.score with | some q => [("score", .num q)] | none => []))

/-- The value `_search` hands back, as a JS value: the flat branch's
`{ weights: null, results }` object, or the formatted array. -/
def searchOutputToJs : SearchOutput → JsVal
  | .raw rs => .obj [("weights", .null),
      ("results", .arr (rs.map recordResultToJs))]
  | .formatted l => .arr (l.map formattedItemToJs)

/-- Truthiness of `children.length` in the recursive branch: on the raw
`{ weights, results }` object `.length` is `undefined` (falsy); on a
formatted array it is the length. -/
def soLenTruthy : SearchOutput → Bool
  | .raw _ => false
  | .formatted l => !l.isEmpty

/-- The record's sort key: `result.score` (always assigned by
`_computeScore` before `_sort` runs in the structured branch). -/
def scoreD (r : RecordResult) : ℚ := r.score.getD 0

/-- The weight lookup in `_computeScore`:
`weights ? weights[output[j].key].weight : 1`. -/
def lookupWeight (weights : Option (String → ℚ)) (k : String) : ℚ :=
  match weights with
  | none => 1
  | some w => w k

/-- `_computeScore`'s per-record aggregation: walk `output`, multiply each
field score by its registered weight; weights `≠ 1` feed a running minimum
(`bestScore`), weights `= 1` feed a running sum (`totalScore`); the record
score is the mean `totalScore / output.length` when `bestScore` is still
`1`, else `bestScore`. `weights` is `null` (`none`) for flat collections. -/
def aggregateScore (weights : Option (String → ℚ))
    (output : List FieldResult) : ℚ :=
  let acc := output.foldl
    (fun (acc : ℚ × ℚ) fr =>
      let weight := lookupWeight weights fr.key
      let nScore := fr.score * weight
      if weight ≠ 1 then (acc.1, min acc.2 nScore)
      else (acc.1 + nScore, acc.2))
    (0, 1)
  if acc.2 = 1 then acc.1 / (output.length : ℚ) else acc.2

/-- `_computeScore` over the whole results list. -/
def computeScore (weights : Option (String → ℚ))
    (rs : List RecordResult) : List RecordResult :=
  rs.map (fun r => { r with score := some (aggregateScore weights r.output) })

/-- `_sort` with the default comparator `(a, b) => a.score - b.score`:
a stable ascending sort by score (`Array.prototype.sort` is stable). -/
def sortResults (rs : List RecordResult) : List RecordResult :=
  rs.insertionSort (fun a b => scoreD a ≤ scoreD b)

/-- The `v[0]` indexing applied to the `id` projection in `_format`. -/
def jsIndex0 : JsVal → JsVal
  | .arr l => l.headD .undefined
  | .str s => if s.isEmpty then .undefined else .str (String.singleton s.front)
  | .obj fields => objGet (.obj fields) "0"
  | _ => .undefined

/-- `_format` for one record: optional `id` remapping, then either the bare
item (no transformers) or the `{ item, matches?, score? }` data object
(`matches` omits falsy keys, i.e. the empty string). -/
def formatOne (o : Options) (r : RecordResult) : FormattedItem :=
  let item := match o.id with
    | some idKey => jsIndex0 (o.getF r.item idKey)
    | none => r.item
  if o.includeMatches || o.includeScore then
    .data item
      (if o.includeMatches then
        some (r.output.map (fun fr =>
          ⟨fr.matchedIndices, if fr.key = "" then none else some fr.key⟩))
       else none)
      (if o.includeScore then some (scoreD r) else none)
  else .plain item

/-- `_format` over the results list. -/
def formatResults (o : Options) (rs : List RecordResult) :
    List FormattedItem :=
  rs.map (formatOne o)

/-- The JS `results` array, materialized from the state (its entries are the
`resultMap` slots, in insertion order). -/
def materialize (st : SearchState) : List RecordResult :=
  st.order.filterMap (rmGet st.resultMap)

/-- The splice step of `_search`'s recursive branch, once the child search
produced `children`: when the parent already has a result entry, replace it
with a copy whose `item` is a copy of the old item with the child output
under the designated key (`Object.assign` twice); otherwise, when the child
output's `.length` is truthy, add a fresh entry with an empty `output` and
the copied, spliced parent item. -/
def spliceChild (o : Options) (item : JsVal) (children : SearchOutput)
    (i : Nat) (st : SearchState) : SearchState :=
  match rmGet st.resultMap i with
  | some r =>
    { st with
      resultMap :=
        rmSet st.resultMap i
          { r with
            item := objAssignKey r.item o.recursiveKey
              (searchOutputToJs children) } }
  | none =>
    if soLenTruthy children then
      { resultMap :=
          rmSet st.resultMap i
            ⟨objAssignKey item o.recursiveKey (searchOutputToJs children),
              [], none⟩,
        order := st.order ++ [i] }
    else st

/-- The record loop of `_search`'s structured branch: for each record, run
the key loop (weight registration, validation, `_analyze`), then, when
recursion is enabled and the record's designated field holds a non-empty
array, search it with `cs` and splice the child output back
(`spliceChild`). -/
def recordsLoop (o : Options) (keys : List KeySpec)
    (cs : List JsVal → Except FuseErr SearchOutput) (ts : List Searcher)
    (fs : Searcher) (af : Nat) :
    List JsVal → Nat → ((String → ℚ) × SearchState) →
    Except FuseErr ((String → ℚ) × SearchState)
  | [], _, acc => .ok acc
  | item :: rest, i, acc => do
    let acc ← keysLoop o keys ts fs af item i acc
    let st ←
      if o.recursiveEnabled then
        match objGet item o.recursiveKey with
        | .arr l =>
          if l.length > 0 then
            (cs l).map (fun children => spliceChild o item children i acc.2)
          else pure acc.2
        | _ => pure acc.2
      else pure acc.2
    recordsLoop o keys cs ts fs af rest (i + 1) (acc.1, st)

/-- The structured branch of `_search` up to (and including) `_computeScore`
and the optional `_sort`: the ranked results list that `_format` then
projects. `cs` performs the nested `this._search` on child collections. -/
def rankedResults (o : Options) (keys : List KeySpec)
    (cs : List JsVal → Except FuseErr SearchOutput) (ts : List Searcher)
    (fs : Searcher) (af : Nat) (list : List JsVal) :
    Except FuseErr (List RecordResult) := do
  let (w, st) ← recordsLoop o keys cs ts fs af list 0 (initWeights, initState)
  let scored := computeScore (some w) (materialize st)
  .ok (if o.shouldSort then sortResults scored else scored)

/-- The flat-string branch's item loop: `_analyze({ key: '', value: list[i],
record: i, index: i })` — note the record stored is the numeric index. -/
def flatLoop (o : Options) (ts : List Searcher) (fs : Searcher) (af : Nat) :
    List JsVal → Nat → SearchState → SearchState
  | [], _, st => st
  | v :: rest, i, st =>
    flatLoop o ts fs af rest (i + 1)
      (analyzeVal af o ts fs "" (JsVal.num i) i v st)

/-- `_search(list, tokenSearchers, fullSearcher)`: when the first element is
a string the collection is treated as flat and the raw
`{ weights: null, results }` object is returned as-is (no scoring, sorting
or formatting); otherwise the structured pipeline runs and its result is
formatted. `fuel` bounds the recursion depth into child collections. -/
def fuseSearch : Nat → Options → List KeySpec → List Searcher → Searcher →
    List JsVal → Except FuseErr SearchOutput
  | 0, _, _, _, _, _ => .error .outOfFuel
  | fuel + 1, o, keys, ts, fs, list =>
    match list.head? with
    | some (.str _) =>
      .ok (.raw (materialize (flatLoop o ts fs (fuel + 1) list 0 initState)))
    | _ =>
      (rankedResults o keys (fuseSearch fuel o keys ts fs) ts fs (fuel + 1)
        list).map (fun rs => .formatted (formatResults o rs))

/-- The public entry point `search(pattern)`: build the token searchers from
the pattern split on the separator (when `tokenize` is set) and the
full-text searcher, then run `_search` on the collection. `mk` is the
external `new Bitap(pattern, options)` constructor. -/
def fuseSearchEntry (fuel : Nat) (mk : String → Searcher) (o : Options)
    (keys : List KeySpec) (pattern : String) (list : List JsVal) :
    Except FuseErr SearchOutput :=
  let ts := if o.tokenize then (o.splitF pattern).map mk else []
  fuseSearch fuel o keys ts (mk pattern) list

/-- The `typeof list[0] === 'string'` test selecting the flat branch. -/
def headIsString (list : List JsVal) : Bool :=
  match list.head? with
  | some (.str _) => true
  | _ => false

/-- A declared key weight the validation in `_search` rejects:
`key.weight <= 0 || key.weight > 1` (plain string keys carry no weight). -/
def badWeightKey : KeySpec → Prop
  | .plain _ => False
  | .weighted _ w => w ≤ 0 ∨ 1 < w

instance : DecidablePred badWeightKey := fun k => by
  cases k <;> simp [badWeightKey] <;> infer_instance

/-- A concrete matcher used for witnesses: exact equality with the pattern
(the behaviour of a Bitap searcher for `pattern` at threshold `0` and
expected location `0`: score `0` and full-span indices on the exact text,
no match otherwise). -/
def eqSearcher (pattern : String) : Searcher :=
  ⟨fun t =>
    if t = pattern then ⟨true, 0, [(0, pattern.length - 1)]⟩
    else ⟨false, 1, []⟩⟩

/-- A concrete matcher used for witnesses: perfect score on every text (the
behaviour of a Bitap searcher whose pattern occurs at the expected location
of every candidate). -/
def allSearcher : Searcher := ⟨fun _ => ⟨true, 0, []⟩⟩

/-- Default options with `tokenize` enabled. -/
def optTok : Options := { defaultOptions with tokenize := true }

/-- Default options with `tokenize` and `matchAllTokens` enabled. -/
def optTokAll : Options :=
  { defaultOptions with tokenize := true, matchAllTokens := true }

/-- Default options with recursion into the `"children"` field enabled. -/
def optRec : Options :=
  { defaultOptions with recursiveEnabled := true, recursiveKey := "children" }

/-- A concrete matcher used for witnesses: a fixed score per text
(a matcher whose pattern fuzzily matches `"x"` poorly and `"y"` well). -/
def twoScoreSearcher : Searcher :=
  ⟨fun s =>
    if s = "x" then ⟨true, 4/5, []⟩
    else if s = "y" then ⟨true, 3/10, []⟩
    else ⟨false, 1, []⟩⟩

/-! ## Theorems -/

/-- C1: REFUTED BY THE CODE (code bug). For a collection whose first element
is a raw string, `search` does not return the formatted, scored, sorted
result shape: the flat branch of `_search` early-returns the internal
`{ weights: null, results }` object, skipping `_computeScore`, `_sort` and
`_format` entirely (and its result entries carry the numeric index as
`item`). This theorem evaluates the public entry point on the failing
input: collection `["ab"]`, pattern `"ab"`, default options. -/
theorem C1_flat_raw_output :
    fuseSearchEntry 1 eqSearcher defaultOptions [] "ab" [JsVal.str "ab"] =
      .ok (.raw [⟨JsVal.num 0, [⟨"", 0, [(0, 1)]⟩], none⟩]) := by
  rfl

/-- C6: the concrete aggregation example: fields
`{a: score 0.2, weight 1}` and `{b: score 0.9, declared weight 0.5}`
aggregate to `0.45 = 9/20`, the weighted minimum, not the mean. (For a
declared weight of `0.5` the stored weight `(1 - 0.5) || 1` is again
`0.5`, so the spec's arithmetic holds at this point.) -/
theorem C6_weighted_aggregate_example :
    aggregateScore
      (some (wset (wset initWeights "a" 1) "b" (storedWeight (1/2))))
      [⟨"a", 1/5, []⟩, ⟨"b", 9/10, []⟩] = 9/20 := by
  simp [aggregateScore, lookupWeight, wset, initWeights, storedWeight]
  norm_num [min_def]

/-- C2 counterexample: the aggregate does not multiply by the declared
weight. For a single field with score `1/2` under a key declared with
weight `3/10`, the registered weight is `(1 - 3/10) || 1 = 7/10` and the
aggregate is `1/2 * 7/10 = 7/20`, whereas the claim's formula
`score × declared weight` gives `1/2 * 3/10 = 3/20`. -/
theorem C2_declared_weight_cex :
    aggregateScore (some (wset initWeights "b" (storedWeight (3/10))))
      [⟨"b", 1/2, []⟩] = 7/20 ∧ (7/20 : ℚ) ≠ (1/2) * (3/10) := by
  constructor
  · simp [aggregateScore, lookupWeight, wset, initWeights, storedWeight]
    norm_num [min_def]
  · norm_num

/-- C8: a resolved field value that is missing (`undefined`/`null`) or not
searchable text (boolean, number, plain object) is skipped silently by
`_analyze`: the accumulated state is returned unchanged, no error is
possible (`analyzeVal` is total), and since the state is threaded
functionally the remaining fields and records are processed exactly as if
the field were absent. -/
theorem C8_unsearchable_skipped (af : Nat) (o : Options) (ts : List Searcher)
    (fs : Searcher) (key : String) (record : JsVal) (index : Nat)
    (st : SearchState) (v : JsVal)
    (h : v = .undefined ∨ v = .null ∨ (∃ b, v = .bool b) ∨ (∃ q, v = .num q) ∨
      (∃ fl, v = .obj fl)) :
    analyzeVal af o ts fs key record index v st = st := by
  rcases h with h | h | ⟨b, h⟩ | ⟨q, h⟩ | ⟨fl, h⟩ <;> subst h <;>
    cases af <;> rfl

/-- C8 witness: a numeric field value is skipped. -/
theorem C8_witness :
    analyzeVal 1 defaultOptions [] (eqSearcher "ab") "k" (JsVal.obj []) 0
      (JsVal.num 5) initState = initState :=
  C8_unsearchable_skipped 1 defaultOptions [] (eqSearcher "ab") "k"
    (JsVal.obj []) 0 initState (JsVal.num 5)
    (Or.inr (Or.inr (Or.inr (Or.inl ⟨5, rfl⟩))))

/-- Helper: the inner word loop of the tokenized branch, fully characterized:
`hasMatchInText` is "some word matches", and the pushed scores are the
per-pair contributions in order. -/
theorem tokenScanOne_foldl_eq (o : Options) (t : Searcher) :
    ∀ (words : List String) (b : Bool) (l : List ℚ),
      words.foldl (fun acc w =>
          let r := t.search w
          if r.isMatch then (true, acc.2 ++ [r.score])
          else (acc.1, if o.matchAllTokens then acc.2 else acc.2 ++ [1]))
        (b, l) =
      (b || words.any (fun w => (t.search w).isMatch),
       l ++ words.filterMap (pairContrib o t)) := by
  intro words
  induction words with
  | nil => intro b l; simp
  | cons w ws ih =>
    intro b l
    simp only [List.foldl_cons, List.any_cons, List.filterMap_cons,
      pairContrib]
    cases hm : (t.search w).isMatch with
    | true =>
      simp only [hm, if_true, Bool.true_or, Bool.or_true]
      rw [ih]
      simp
    | false =>
      cases hma : o.matchAllTokens with
      | true =>
        simp only [hma, hm, Bool.false_eq_true, if_false, ite_false,
          if_true, ite_true] at ih ⊢
        rw [ih]
        simp
      | false =>
        simp only [hma, hm, Bool.false_eq_true, if_false, ite_false,
          if_true, ite_true] at ih ⊢
        rw [ih]
        simp

/-- Helper: `tokenScanOne`, characterized. -/
theorem tokenScanOne_eq (o : Options) (t : Searcher) (words : List String) :
    tokenScanOne o t words =
      (words.any (fun w => (t.search w).isMatch),
       words.filterMap (pairContrib o t)) := by
  unfold tokenScanOne
  rw [tokenScanOne_foldl_eq]
  simp

/-- Helper: the outer searcher loop of the tokenized branch, fully
characterized over an arbitrary accumulator. -/
theorem tokenScan_foldl_eq (o : Options) (words : List String) :
    ∀ (ts : List Searcher) (l : List ℚ) (n : Nat) (b : Bool),
      ts.foldl (fun acc t =>
          let one := tokenScanOne o t words
          (acc.1 ++ one.2, acc.2.1 + (if one.1 then 1 else 0),
            acc.2.2 || one.1))
        (l, n, b) =
      (l ++ ts.flatMap (fun t => (tokenScanOne o t words).2),
       n + ts.countP (fun t => (tokenScanOne o t words).1),
       b || ts.any (fun t => (tokenScanOne o t words).1)) := by
  intro ts
  induction ts with
  | nil => intro l n b; simp
  | cons t ts ih =>
    intro l n b
    simp only [List.foldl_cons, List.flatMap_cons, List.countP_cons,
      List.any_cons, ih]
    refine Prod.ext ?_ (Prod.ext ?_ ?_)
    · simp
    · simp only []
      omega
    · simp [Bool.or_assoc]

/-- Helper: `tokenScan`, characterized: the accumulated `scores` are the
per-pair contributions (`tokenContribs`), `numTextMatches` counts the query
tokens with at least one matching word, and `exists` says some pair
matched. -/
theorem tokenScan_eq (o : Options) (ts : List Searcher)
    (words : List String) :
    tokenScan o ts words =
      (tokenContribs o ts words,
       ts.countP (fun t => words.any (fun w => (t.search w).isMatch)),
       ts.any (fun t => words.any (fun w => (t.search w).isMatch))) := by
  unfold tokenScan
  rw [tokenScan_foldl_eq]
  simp [tokenScanOne_eq, tokenContribs]

/-- C5: with `tokenize` and `matchAllTokens` both enabled, a field whose
text leaves some query token without any matching field token is excluded
entirely: `_analyze` leaves the result state unchanged, whatever the
individual pair scores, and even when the full-text searcher alone reports
a match (the theorem quantifies over the full-text searcher `fs`, so it
holds in particular when `fs` reports a passing match). -/
theorem C5_matchAllTokens_excludes (o : Options) (ts : List Searcher)
    (fs : Searcher) (key : String) (record : JsVal) (index : Nat)
    (value : String) (st : SearchState) (t : Searcher)
    (h1 : o.tokenize = true) (h2 : o.matchAllTokens = true) (ht : t ∈ ts)
    (hnone : ∀ w ∈ o.splitF value, (t.search w).isMatch = false) :
    analyzeString o ts fs key record index value st = st := by
  have hpt : ((o.splitF value).any (fun w => (t.search w).isMatch)) =
      false := by
    simp only [List.any_eq_false]
    intro w hw
    simp [hnone w hw]
  have hcount :
      ts.countP
        (fun s => (o.splitF value).any (fun w => (s.search w).isMatch)) <
      ts.length := by
    have hle := List.countP_le_length
      (p := fun s => (o.splitF value).any (fun w => (s.search w).isMatch))
      (l := ts)
    rcases lt_or_eq_of_le hle with h | h
    · exact h
    · exfalso
      have := List.countP_eq_length.mp h t ht
      rw [hpt] at this
      exact Bool.false_ne_true this
  have hdec :
      decide (ts.countP
        (fun s => (o.splitF value).any (fun w => (s.search w).isMatch)) ≥
        ts.length) = false := by
    simp only [decide_eq_false_iff_not, ge_iff_le, Nat.not_le]
    exact hcount
  unfold analyzeString
  simp only [h1, h2, tokenScan_eq, Bool.and_self, if_true, ite_true, hdec,
    Bool.and_false, Bool.false_eq_true, if_false, ite_false]

/-- C5 witness: concrete exclusion despite a passing full-text match: query
token searcher for `"zz"` never matches a word of `"ab cd"`, so the field
is dropped even though the full-text searcher reports a perfect match. -/
theorem C5_witness :
    analyzeString optTokAll [eqSearcher "zz"] allSearcher "" (JsVal.obj [])
      0 "ab cd" initState = initState :=
  C5_matchAllTokens_excludes optTokAll [eqSearcher "zz"] allSearcher ""
    (JsVal.obj []) 0 "ab cd" initState (eqSearcher "zz") rfl rfl
    (List.mem_singleton.mpr rfl) (by decide)

/-- C3 counterexample: the token-average is not derived per query token.
Two field texts with identical per-query-token data — the single query
token (searcher for `"ab"`) matches a word with score `0` in both texts,
and the full-text score is `0` in both — receive different stored field
scores (`0` vs `1/4`), because `_analyze` pushes one entry per
`(query token, field token)` pair: the extra non-matching word `"cd"`
pushes an additional `1.0` penalty, giving token average `1/2` and final
score `(0 + 1/2) / 2 = 1/4`. Under the claim's per-query-token derivation
(the token is matched, unmatched tokens alone contribute `1.0`) both texts
would receive the same final score. -/
theorem C3_pair_penalty_cex :
    (analyzeString optTok [eqSearcher "ab"] allSearcher "" (JsVal.obj []) 0
        "ab" initState).resultMap =
      [(0, ⟨JsVal.obj [], [⟨"", 0, []⟩], none⟩)] ∧
    (analyzeString optTok [eqSearcher "ab"] allSearcher "" (JsVal.obj []) 0
        "ab cd" initState).resultMap =
      [(0, ⟨JsVal.obj [], [⟨"", 1/4, []⟩], none⟩)] ∧
    (0 : ℚ) ≠ 1/4 := by
  have hts1 : tokenScan optTok [eqSearcher "ab"] (optTok.splitF "ab") =
      ([0], 1, true) := rfl
  have hts2 : tokenScan optTok [eqSearcher "ab"] (optTok.splitF "ab cd") =
      ([0, 1], 1, true) := rfl
  have htok : optTok.tokenize = true := rfl
  have hmat : optTok.matchAllTokens = false := rfl
  refine ⟨?_, ?_, by norm_num⟩
  · simp only [analyzeString, htok, hmat, hts1, if_true, ite_true]
    norm_num [rmGet, rmSet, initState, allSearcher]
  · simp only [analyzeString, htok, hmat, hts2, if_true, ite_true]
    norm_num [rmGet, rmSet, initState, allSearcher]

/-- C3 amended: when `tokenize` is enabled the token average is taken over
`(query token, field token)` pairs — each matching pair contributes its
score, each non-matching pair contributes the full penalty `1.0` (omitted
when `matchAllTokens` is set) — and the field's final score, for a field
that is added to the results, is the arithmetic mean of the full-text score
and this pair average (provided at least one pair contribution exists; with
an empty contribution list JS computes `NaN` and falls back to the
full-text score alone). -/
theorem C3_pair_average_amended (o : Options) (ts : List Searcher)
    (fs : Searcher) (key : String) (record : JsVal) (index : Nat)
    (value : String) (st : SearchState)
    (h1 : o.tokenize = true)
    (hm : (fs.search value).isMatch = true)
    (hfresh : rmGet st.resultMap index = none)
    (hc : tokenContribs o ts (o.splitF value) ≠ [])
    (ha : -1 < (tokenContribs o ts (o.splitF value)).sum /
      ((tokenContribs o ts (o.splitF value)).length : ℚ))
    (hall : o.matchAllTokens = true →
      ∀ t ∈ ts, ∃ w ∈ o.splitF value, (t.search w).isMatch = true) :
    analyzeString o ts fs key record index value st =
      { resultMap := rmSet st.resultMap index
          ⟨record,
            [⟨key,
              ((fs.search value).score +
                (tokenContribs o ts (o.splitF value)).sum /
                  ((tokenContribs o ts (o.splitF value)).length : ℚ)) / 2,
              (fs.search value).matchedIndices⟩], none⟩,
        order := st.order ++ [index] } := by
  obtain ⟨c, cs, hcc⟩ := List.exists_cons_of_ne_nil hc
  unfold analyzeString
  simp only [h1, if_true, ite_true, tokenScan_eq, hm, Bool.or_true,
    Bool.true_and, hfresh, hcc]
  simp [← hcc, ha]
  intro hma hlt
  exfalso
  have hcnt : ts.countP
      (fun t => (o.splitF value).any (fun w => (t.search w).isMatch)) =
      ts.length := by
    refine List.countP_eq_length.mpr (fun t ht => ?_)
    obtain ⟨w, hw, hmt⟩ := hall hma t ht
    simp only [List.any_eq_true]
    exact ⟨w, hw, hmt⟩
  omega

/-- C3 amended witness: query token `"ab"` against field `"ab cd"`: pair
contributions `[0, 1]`, pair average `1/2`, full-text score `0`, stored
field score `(0 + 1/2) / 2 = 1/4`. -/
theorem C3_amended_witness :
    analyzeString optTok [eqSearcher "ab"] allSearcher "k" (JsVal.obj []) 3
      "ab cd" initState =
      { resultMap := rmSet initState.resultMap 3
          ⟨JsVal.obj [], [⟨"k", 1/4, []⟩], none⟩,
        order := initState.order ++ [3] } := by
  have hco : tokenContribs optTok [eqSearcher "ab"] (optTok.splitF "ab cd") =
      [0, 1] := rfl
  have h := C3_pair_average_amended optTok [eqSearcher "ab"] allSearcher "k"
    (JsVal.obj []) 3 "ab cd" initState rfl rfl rfl
    (by rw [hco]; simp)
    (by rw [hco]; norm_num)
    (fun hma => by simp [show optTok.matchAllTokens = false from rfl] at hma)
  rw [h]
  simp only [hco]
  norm_num [allSearcher]

/-- Helper: the `_computeScore` fold, characterized: `totalScore` collects
the field scores whose registered weight is `1`, and `bestScore` is the
running minimum of the weighted products of the other fields. -/
theorem aggregate_foldl_eq (wOf : String → ℚ) :
    ∀ (l : List FieldResult) (t b : ℚ),
      l.foldl (fun (acc : ℚ × ℚ) fr =>
          if wOf fr.key ≠ 1 then (acc.1, min acc.2 (fr.score * wOf fr.key))
          else (acc.1 + fr.score * wOf fr.key, acc.2)) (t, b) =
      (t + ((l.filter (fun fr => wOf fr.key = 1)).map
          (fun fr => fr.score)).sum,
       ((l.filter (fun fr => ¬ wOf fr.key = 1)).map
          (fun fr => fr.score * wOf fr.key)).foldl min b) := by
  intro l
  induction l with
  | nil => intro t b; simp
  | cons fr l ih =>
    intro t b
    rw [List.foldl_cons]
    by_cases h : wOf fr.key = 1
    · have hstep : (if wOf fr.key ≠ 1 then
            ((t, b).1, min (t, b).2 (fr.score * wOf fr.key))
          else ((t, b).1 + fr.score * wOf fr.key, (t, b).2)) =
          (t + fr.score * wOf fr.key, b) := by simp [h]
      rw [hstep, ih]
      simp [List.filter_cons, h, mul_one, add_assoc]
    · have hstep : (if wOf fr.key ≠ 1 then
            ((t, b).1, min (t, b).2 (fr.score * wOf fr.key))
          else ((t, b).1 + fr.score * wOf fr.key, (t, b).2)) =
          (t, min b (fr.score * wOf fr.key)) := by simp [h]
      rw [hstep, ih]
      simp [List.filter_cons, h]

/-- Helper: `aggregateScore` over a registered weights map, characterized
through filters of the output by registered weight. -/
theorem aggregateScore_some_eq (wOf : String → ℚ)
    (output : List FieldResult) :
    aggregateScore (some wOf) output =
      if ((output.filter (fun fr => ¬ wOf fr.key = 1)).map
          (fun fr => fr.score * wOf fr.key)).foldl min 1 = 1 then
        ((output.filter (fun fr => wOf fr.key = 1)).map
          (fun fr => fr.score)).sum / (output.length : ℚ)
      else ((output.filter (fun fr => ¬ wOf fr.key = 1)).map
          (fun fr => fr.score * wOf fr.key)).foldl min 1 := by
  simp only [aggregateScore, lookupWeight]
  rw [aggregate_foldl_eq]
  simp

/-- Helper: a min-fold never exceeds its seed. -/
theorem foldl_min_le_init : ∀ (l : List ℚ) (a : ℚ), l.foldl min a ≤ a := by
  intro l
  induction l with
  | nil => intro a; simp
  | cons x l ih =>
    intro a
    exact le_trans (ih (min a x)) (min_le_left a x)

/-- C2 amended: for per-field scores in `[0,1]` and declared weights in
`(0,1]` (registered through `(1 - w) || 1`): when no field's declared
weight differs from `1` the aggregate is the arithmetic mean of the field
scores; when some do, the aggregate is the minimum over those fields of
`score * (1 - declared weight)` — the multiplier is one minus the declared
weight, not the declared weight itself (the nonempty minimum is written as
a min-fold over the weighted fields). -/
theorem C2_weighted_min_amended (dw : String → ℚ)
    (output : List FieldResult)
    (hs : ∀ fr ∈ output, 0 ≤ fr.score ∧ fr.score ≤ 1)
    (hw : ∀ fr ∈ output, 0 < dw fr.key ∧ dw fr.key ≤ 1) :
    (output.filter (fun fr => ¬ dw fr.key = 1) = [] →
      aggregateScore (some (fun k => storedWeight (dw k))) output =
        (output.map (fun fr => fr.score)).sum / (output.length : ℚ)) ∧
    (∀ fr0 frs, output.filter (fun fr => ¬ dw fr.key = 1) = fr0 :: frs →
      aggregateScore (some (fun k => storedWeight (dw k))) output =
        (frs.map (fun fr => fr.score * (1 - dw fr.key))).foldl min
          (fr0.score * (1 - dw fr0.key))) := by
  have hsw1 : ∀ fr ∈ output, dw fr.key = 1 →
      storedWeight (dw fr.key) = 1 := by
    intro fr _ h1
    simp [storedWeight, h1]
  have hsw2 : ∀ fr ∈ output, dw fr.key ≠ 1 →
      storedWeight (dw fr.key) = 1 - dw fr.key ∧
        storedWeight (dw fr.key) ≠ 1 := by
    intro fr hfr hne
    obtain ⟨hpos, hle⟩ := hw fr hfr
    have hlt : dw fr.key < 1 := lt_of_le_of_ne hle hne
    have hne0 : 1 - dw fr.key ≠ 0 := sub_ne_zero.mpr (ne_of_gt hlt)
    refine ⟨by simp [storedWeight, hne0], ?_⟩
    simp only [storedWeight, hne0, if_false, ite_false]
    intro hq
    have : dw fr.key = 0 := by linarith
    exact absurd this (ne_of_gt hpos)
  have hagg := aggregateScore_some_eq (fun k => storedWeight (dw k)) output
  simp only at hagg
  have hfilP : output.filter (fun fr => ¬ storedWeight (dw fr.key) = 1) =
      output.filter (fun fr => ¬ dw fr.key = 1) := by
    apply List.filter_congr
    intro fr hfr
    by_cases h1 : dw fr.key = 1
    · simp only [h1]
      norm_num [storedWeight]
    · simp [(hsw2 fr hfr h1).2, h1]
  have hfilQ : output.filter (fun fr => storedWeight (dw fr.key) = 1) =
      output.filter (fun fr => dw fr.key = 1) := by
    apply List.filter_congr
    intro fr hfr
    by_cases h1 : dw fr.key = 1
    · simp only [h1]
      norm_num [storedWeight]
    · simp [(hsw2 fr hfr h1).2, h1]
  rw [hfilP, hfilQ] at hagg
  constructor
  · intro hnil
    have hQ : output.filter (fun fr => dw fr.key = 1) = output := by
      rw [List.filter_eq_self]
      intro fr hfr
      have := List.filter_eq_nil_iff.mp hnil fr hfr
      simpa using this
    rw [hagg, hnil, hQ]
    simp
  · intro fr0 frs hfil
    have hmem0 : fr0 ∈ output.filter (fun fr => ¬ dw fr.key = 1) := by
      rw [hfil]; exact List.mem_cons_self fr0 frs
    have hfr0out : fr0 ∈ output := List.mem_of_mem_filter hmem0
    have hfr0ne : dw fr0.key ≠ 1 := by
      simpa using List.of_mem_filter hmem0
    obtain ⟨hpos0, hle0⟩ := hw fr0 hfr0out
    obtain ⟨hss0, hse0⟩ := hs fr0 hfr0out
    have h1w0 : (0:ℚ) ≤ 1 - dw fr0.key := by
      have := lt_of_le_of_ne hle0 hfr0ne
      linarith
    have hf0le : fr0.score * (1 - dw fr0.key) ≤ 1 - dw fr0.key :=
      mul_le_of_le_one_left h1w0 hse0
    have hf0lt : fr0.score * (1 - dw fr0.key) < 1 :=
      lt_of_le_of_lt hf0le (by linarith)
    have hmap : (fr0 :: frs).map
        (fun fr => fr.score * storedWeight (dw fr.key)) =
        (fr0 :: frs).map (fun fr => fr.score * (1 - dw fr.key)) := by
      apply List.map_congr_left
      intro fr hfr
      have hmem : fr ∈ output.filter (fun fr => ¬ dw fr.key = 1) := by
        rw [hfil]; exact hfr
      have hout : fr ∈ output := List.mem_of_mem_filter hmem
      have hne : dw fr.key ≠ 1 := by simpa using List.of_mem_filter hmem
      rw [(hsw2 fr hout hne).1]
    rw [hagg, hfil, hmap, List.map_cons, List.foldl_cons,
      min_eq_right (le_of_lt hf0lt)]
    have hle' := foldl_min_le_init
      (frs.map (fun fr => fr.score * (1 - dw fr.key)))
      (fr0.score * (1 - dw fr0.key))
    have hne1 : (frs.map (fun fr => fr.score * (1 - dw fr.key))).foldl min
        (fr0.score * (1 - dw fr0.key)) ≠ 1 := by
      intro hq
      rw [hq] at hle'
      linarith
    rw [if_neg hne1]

/-- C2 amended witness: a single field with score `1/2` and declared weight
`3/10`: the weighted branch applies and the aggregate is
`1/2 * (1 - 3/10) = 7/20`. -/
theorem C2_amended_witness :
    aggregateScore (some (fun k => storedWeight ((fun _ => (3:ℚ)/10) k)))
      [⟨"b", 1/2, []⟩] = 7/20 := by
  have h := (C2_weighted_min_amended (fun _ => (3:ℚ)/10) [⟨"b", 1/2, []⟩]
    (by norm_num) (by norm_num)).2 ⟨"b", 1/2, []⟩ []
    (by simp; norm_num)
  rw [h]
  norm_num

/-- Helper: a key that is not rejected is processed successfully (the key
loop body is total apart from the weight validation). -/
theorem processKey_ok_of_not_bad (o : Options) (ts : List Searcher)
    (fs : Searcher) (af : Nat) (item : JsVal) (i : Nat)
    (acc : (String → ℚ) × SearchState) (k : KeySpec)
    (h : ¬ badWeightKey k) :
    ∃ acc2, processKey o ts fs af item i acc k = .ok acc2 := by
  cases k with
  | plain name => exact ⟨_, rfl⟩
  | weighted name wt =>
    simp only [badWeightKey, not_or] at h
    refine ⟨(wset acc.1 name (storedWeight wt),
      analyzeVal af o ts fs name item i (o.getF item name) acc.2), ?_⟩
    simp only [processKey]
    rw [if_neg (by simp [h.1, h.2])]

/-- Helper: a key with an out-of-range declared weight makes the key loop
body throw `invalidWeight`. -/
theorem processKey_error_of_bad (o : Options) (ts : List Searcher)
    (fs : Searcher) (af : Nat) (item : JsVal) (i : Nat)
    (acc : (String → ℚ) × SearchState) (k : KeySpec)
    (h : badWeightKey k) :
    processKey o ts fs af item i acc k = .error .invalidWeight := by
  cases k with
  | plain name => exact absurd h (by simp [badWeightKey])
  | weighted name wt =>
    simp only [badWeightKey] at h
    simp only [processKey]
    rcases h with h | h
    · rw [if_pos (by simp [h])]
    · rw [if_pos (by simp [h])]

/-- Helper: the key loop fails (with `invalidWeight`) exactly when some
configured key carries an out-of-range weight, and succeeds otherwise. -/
theorem keysLoop_error_iff (o : Options) (keys : List KeySpec)
    (ts : List Searcher) (fs : Searcher) (af : Nat) (item : JsVal)
    (i : Nat) :
    ∀ acc,
      (keysLoop o keys ts fs af item i acc = .error .invalidWeight ↔
        ∃ k ∈ keys, badWeightKey k) ∧
      (¬ (∃ k ∈ keys, badWeightKey k) →
        ∃ acc2, keysLoop o keys ts fs af item i acc = .ok acc2) := by
  induction keys with
  | nil =>
    intro acc
    constructor
    · simp only [keysLoop, List.foldlM_nil]
      constructor
      · intro h
        exact absurd h (by simp [pure, Except.pure])
      · rintro ⟨k, hk, _⟩
        exact absurd hk (List.not_mem_nil k)
    · intro _
      exact ⟨acc, rfl⟩
  | cons k ks ih =>
    intro acc
    by_cases hb : badWeightKey k
    · have he := processKey_error_of_bad o ts fs af item i acc k hb
      constructor
      · simp only [keysLoop, List.foldlM_cons, he]
        constructor
        · intro _
          exact ⟨k, List.mem_cons_self k ks, hb⟩
        · intro _
          rfl
      · intro hno
        exact absurd ⟨k, List.mem_cons_self k ks, hb⟩ hno
    · obtain ⟨acc2, hok⟩ := processKey_ok_of_not_bad o ts fs af item i acc
        k hb
      have hrest := ih acc2
      constructor
      · simp only [keysLoop, List.foldlM_cons, hok] at hrest ⊢
        rw [show ((.ok acc2 : Except FuseErr ((String → ℚ) × SearchState))
              >>= fun s => List.foldlM
                (fun acc k => processKey o ts fs af item i acc k) s ks) =
            List.foldlM (fun acc k => processKey o ts fs af item i acc k)
              acc2 ks from rfl]
        rw [hrest.1]
        constructor
        · rintro ⟨k', hk', hbk'⟩
          exact ⟨k', List.mem_cons_of_mem k hk', hbk'⟩
        · rintro ⟨k', hk', hbk'⟩
          rcases List.mem_cons.mp hk' with rfl | hk'
          · exact absurd hbk' hb
          · exact ⟨k', hk', hbk'⟩
      · intro hno
        have hno' : ¬ ∃ k' ∈ ks, badWeightKey k' := by
          rintro ⟨k', hk', hbk'⟩
          exact hno ⟨k', List.mem_cons_of_mem k hk', hbk'⟩
        obtain ⟨acc3, hok3⟩ := hrest.2 hno'
        refine ⟨acc3, ?_⟩
        simp only [keysLoop, List.foldlM_cons, hok]
        rw [show ((.ok acc2 : Except FuseErr ((String → ℚ) × SearchState))
              >>= fun s => List.foldlM
                (fun acc k => processKey o ts fs af item i acc k) s ks) =
            List.foldlM (fun acc k => processKey o ts fs af item i acc k)
              acc2 ks from rfl]
        simpa [keysLoop] using hok3

/-- Helper: with a bad key configured, the record loop fails with
`invalidWeight` on the very first record, before any recursion. -/
theorem recordsLoop_error_of_bad (o : Options) (keys : List KeySpec)
    (cs : List JsVal → Except FuseErr SearchOutput) (ts : List Searcher)
    (fs : Searcher) (af : Nat) (item : JsVal) (rest : List JsVal) (i : Nat)
    (acc : (String → ℚ) × SearchState)
    (hbad : ∃ k ∈ keys, badWeightKey k) :
    recordsLoop o keys cs ts fs af (item :: rest) i acc =
      .error .invalidWeight := by
  have hkl := (keysLoop_error_iff o keys ts fs af item i acc).1.mpr hbad
  simp only [recordsLoop, hkl]
  rfl

/-- Helper: with recursion disabled and no bad key, the record loop
succeeds on any collection. -/
theorem recordsLoop_ok_of_not_bad (o : Options) (keys : List KeySpec)
    (cs : List JsVal → Except FuseErr SearchOutput) (ts : List Searcher)
    (fs : Searcher) (af : Nat) (hrec : o.recursiveEnabled = false)
    (hno : ¬ ∃ k ∈ keys, badWeightKey k) :
    ∀ (items : List JsVal) (i : Nat) (acc : (String → ℚ) × SearchState),
      ∃ acc2, recordsLoop o keys cs ts fs af items i acc = .ok acc2 := by
  intro items
  induction items with
  | nil => intro i acc; exact ⟨acc, rfl⟩
  | cons item rest ih =>
    intro i acc
    obtain ⟨acc2, hok⟩ := (keysLoop_error_iff o keys ts fs af item i acc).2
      hno
    obtain ⟨acc3, hok3⟩ := ih (i + 1) (acc2.1, acc2.2)
    refine ⟨acc3, ?_⟩
    simp only [recordsLoop, hok, hrec]
    simpa using hok3

/-- Helper: on a collection whose first element is not a string, `_search`
runs the structured pipeline and formats its outcome. -/
theorem fuseSearch_structured (fuel : Nat) (o : Options)
    (keys : List KeySpec) (ts : List Searcher) (fs : Searcher)
    (list : List JsVal) (hstruct : headIsString list = false) :
    fuseSearch (fuel + 1) o keys ts fs list =
      (rankedResults o keys (fuseSearch fuel o keys ts fs) ts fs (fuel + 1)
        list).map (fun rs => SearchOutput.formatted (formatResults o rs)) := by
  cases list with
  | nil => rfl
  | cons v tl =>
    cases v <;> first
      | rfl
      | simp [headIsString] at hstruct

/-- C4: a structured search (first element not a raw string, collection
nonempty, recursion disabled) fails — with the `invalidWeight` rejection,
fatal to the call, so no results are produced — if and only if some
configured key carries a declared weight outside `(0,1]`. -/
theorem C4_invalid_weight_iff (fuel : Nat) (o : Options)
    (keys : List KeySpec) (ts : List Searcher) (fs : Searcher)
    (list : List JsVal) (hrec : o.recursiveEnabled = false)
    (hstruct : headIsString list = false) (hne : list ≠ []) :
    ((∃ e, fuseSearch (fuel + 1) o keys ts fs list = .error e) ↔
      ∃ k ∈ keys, badWeightKey k) ∧
    (fuseSearch (fuel + 1) o keys ts fs list = .error .invalidWeight ↔
      ∃ k ∈ keys, badWeightKey k) := by
  rw [fuseSearch_structured fuel o keys ts fs list hstruct]
  obtain ⟨item, rest, rfl⟩ : ∃ item rest, list = item :: rest := by
    cases list with
    | nil => exact absurd rfl hne
    | cons a b => exact ⟨a, b, rfl⟩
  by_cases hbad : ∃ k ∈ keys, badWeightKey k
  · have herr := recordsLoop_error_of_bad o keys
      (fuseSearch fuel o keys ts fs) ts fs (fuel + 1) item rest 0
      (initWeights, initState) hbad
    have hrr : rankedResults o keys (fuseSearch fuel o keys ts fs) ts fs
        (fuel + 1) (item :: rest) = .error .invalidWeight := by
      simp only [rankedResults, herr]
      rfl
    rw [hrr]
    exact ⟨⟨fun _ => hbad, fun _ => ⟨.invalidWeight, rfl⟩⟩,
      ⟨fun _ => hbad, fun _ => rfl⟩⟩
  · obtain ⟨acc2, hok⟩ := recordsLoop_ok_of_not_bad o keys
      (fuseSearch fuel o keys ts fs) ts fs (fuel + 1) hrec hbad
      (item :: rest) 0 (initWeights, initState)
    obtain ⟨w2, st2⟩ := acc2
    have hrs : rankedResults o keys (fuseSearch fuel o keys ts fs) ts fs
        (fuel + 1) (item :: rest) =
        .ok (if o.shouldSort then
          sortResults (computeScore (some w2) (materialize st2))
        else computeScore (some w2) (materialize st2)) := by
      simp only [rankedResults, hok]
      rfl
    rw [hrs]
    constructor
    · constructor
      · rintro ⟨e, he⟩
        exact absurd he (by simp [Except.map])
      · intro h
        exact absurd h hbad
    · constructor
      · intro he
        exact absurd he (by simp [Except.map])
      · intro h
        exact absurd h hbad

/-- C4 witness: a key declared with weight `2` makes the structured search
fail with the invalid-weight rejection. -/
theorem C4_witness :
    fuseSearch 1 defaultOptions [KeySpec.weighted "a" 2] []
      (eqSearcher "q") [JsVal.obj []] = .error .invalidWeight :=
  (C4_invalid_weight_iff 0 defaultOptions [KeySpec.weighted "a" 2] []
    (eqSearcher "q") [JsVal.obj []] rfl rfl (by simp)).2.mpr
    ⟨KeySpec.weighted "a" 2, by simp, Or.inr (by norm_num)⟩

/-- C9: when `shouldSort` is enabled, the ranked results list the
structured branch of `_search` produces (and then hands to `_format`) is
sorted by ascending aggregate score — the order induced by the default
comparator `(a, b) => a.score - b.score`. -/
theorem C9_sorted_by_score (o : Options) (keys : List KeySpec)
    (cs : List JsVal → Except FuseErr SearchOutput) (ts : List Searcher)
    (fs : Searcher) (af : Nat) (list : List JsVal)
    (rs : List RecordResult) (hsort : o.shouldSort = true)
    (hok : rankedResults o keys cs ts fs af list = .ok rs) :
    rs.Pairwise (fun a b => scoreD a ≤ scoreD b) := by
  rcases hrl : recordsLoop o keys cs ts fs af list 0
      (initWeights, initState) with e | acc
  · rw [rankedResults, hrl] at hok
    exact absurd hok (by simp [Bind.bind, Except.bind])
  · obtain ⟨w, st⟩ := acc
    rw [rankedResults, hrl] at hok
    simp only [Bind.bind, Except.bind, hsort, if_true, ite_true,
      Except.ok.injEq] at hok
    rw [← hok]
    unfold sortResults
    haveI : IsTotal RecordResult (fun a b => scoreD a ≤ scoreD b) :=
      ⟨fun a b => le_total _ _⟩
    haveI : IsTrans RecordResult (fun a b => scoreD a ≤ scoreD b) :=
      ⟨fun _ _ _ hab hbc => le_trans hab hbc⟩
    exact List.sorted_insertionSort _ _

/-- C9 witness: two records matched with scores `4/5` then `3/10` come out
of the ranked pipeline reordered ascending (`3/10` before `4/5`), and that
list is sorted. -/
theorem C9_witness :
    List.Pairwise (fun a b => scoreD a ≤ scoreD b)
      [(⟨JsVal.obj [("a", JsVal.str "y")], [⟨"a", 3/10, []⟩],
          some (3/10)⟩ : RecordResult),
        ⟨JsVal.obj [("a", JsVal.str "x")], [⟨"a", 4/5, []⟩],
          some (4/5)⟩] := by
  refine C9_sorted_by_score defaultOptions [KeySpec.plain "a"]
    (fun _ => Except.error FuseErr.outOfFuel) [] twoScoreSearcher 1
    [JsVal.obj [("a", JsVal.str "x")], JsVal.obj [("a", JsVal.str "y")]]
    _ rfl ?_
  have hgx : defaultOptions.getF (JsVal.obj [("a", JsVal.str "x")]) "a" =
      JsVal.str "x" := rfl
  have hgy : defaultOptions.getF (JsVal.obj [("a", JsVal.str "y")]) "a" =
      JsVal.str "y" := rfl
  have ht : defaultOptions.tokenize = false := rfl
  have hm : defaultOptions.matchAllTokens = false := rfl
  have hss : defaultOptions.shouldSort = true := rfl
  have hre : defaultOptions.recursiveEnabled = false := rfl
  have hyx : ("y" : String) ≠ "x" := by decide
  norm_num [rankedResults, recordsLoop, keysLoop, processKey, analyzeVal,
    analyzeString, hgx, hgy, ht, hm, hss, hre, hyx, twoScoreSearcher, rmGet,
    rmSet, initState, materialize, computeScore, aggregateScore,
    lookupWeight, wset, initWeights, sortResults, scoreD,
    List.insertionSort, List.orderedInsert, Bind.bind, Except.bind, pure,
    Except.pure]

/-- Helper: replacing key `k` in place does not disturb lookups of other
keys. -/
theorem find?_setKey_ne (k : String) (v : JsVal) (k' : String)
    (h : ¬ k' = k) :
    ∀ ps : List (String × JsVal),
      (ps.map (fun p => if p.1 = k then (p.1, v) else p)).find?
        (fun p => p.1 = k') = ps.find? (fun p => p.1 = k') := by
  intro ps
  induction ps with
  | nil => rfl
  | cons p ps ih =>
    simp only [List.map_cons]
    by_cases hp : p.1 = k
    · rw [if_pos hp]
      have hne : ¬ p.1 = k' := by
        rw [hp]
        exact fun hq => h hq.symm
      rw [List.find?_cons, List.find?_cons]
      simp [hne, ih]
    · rw [if_neg hp]
      by_cases hc : p.1 = k'
      · rw [List.find?_cons, List.find?_cons]
        simp [hc]
      · rw [List.find?_cons, List.find?_cons]
        simp [hc, ih]

/-- Helper: the copy-on-write `Object.assign({}, base, {[k]: v})` preserves
every key other than `k`. -/
theorem objGet_assign_ne (fields : List (String × JsVal)) (k : String)
    (v : JsVal) (k' : String) (h : k' ≠ k) :
    objGet (objAssignKey (.obj fields) k v) k' =
      objGet (.obj fields) k' := by
  simp only [objAssignKey]
  by_cases ha : fields.any (fun p => p.1 = k)
  · rw [if_pos ha]
    simp only [objGet, find?_setKey_ne k v k' h fields]
  · rw [if_neg ha]
    simp only [objGet, List.find?_append]
    have : ([(k, v)].find? (fun p => p.1 = k')) = none := by
      simp
      exact fun hq => h hq.symm
    rw [this]
    cases fields.find? (fun p => p.1 = k') <;> rfl

/-- Helper: the copy-on-write `Object.assign({}, base, {[k]: v})` maps `k`
to the new value. -/
theorem objGet_assign_eq (fields : List (String × JsVal)) (k : String)
    (v : JsVal) :
    objGet (objAssignKey (.obj fields) k v) k = v := by
  induction fields with
  | nil => simp [objAssignKey, objGet]
  | cons p ps ih =>
    by_cases hp : p.1 = k
    · have ha : (p :: ps).any (fun q => q.1 = k) = true := by
        simp [List.any_cons, hp]
      simp only [objAssignKey, ha, if_true, ite_true, List.map_cons,
        if_pos hp, objGet, List.find?_cons]
      simp [hp]
    · have ha : (p :: ps).any (fun q => q.1 = k) = ps.any (fun q => q.1 = k) := by
        simp [List.any_cons, hp]
      by_cases hany : ps.any (fun q => q.1 = k)
      · simp only [objAssignKey, ha, hany, if_true, ite_true, List.map_cons,
          if_neg hp, objGet, List.find?_cons] at ih ⊢
        simp only [hp, decide_eq_true_eq]
        simp [hp] at ih ⊢
        exact ih
      · simp only [objAssignKey, ha, hany, Bool.false_eq_true, if_false,
          ite_false, objGet, List.cons_append, List.find?_cons] at ih ⊢
        simp [hp] at ih ⊢
        exact ih

/-- C7: with recursion enabled, for a parent record whose designated field
holds a non-empty child collection whose search yields results, and whose
own fields produce no direct match (the key loop leaves the result state
untouched), the parent still appears in the search output: its projected
item is a fresh copy with the child results spliced under the designated
key, agreeing with the original record at every other key (copy-on-write —
the original record value is untouched, as the splice builds a new object;
the embedding is state-free, so the input collection itself cannot be
mutated). Options use the default projection (no `id`, no match/score
attachment). -/
theorem C7_recursive_splice (fuel : Nat) (o : Options) (keys : List KeySpec)
    (ts : List Searcher) (fs : Searcher) (fields : List (String × JsVal))
    (l : List JsVal) (co : List FormattedItem) (w1 : String → ℚ)
    (hrec : o.recursiveEnabled = true)
    (hchild : objGet (.obj fields) o.recursiveKey = .arr l) (hl : l ≠ [])
    (hcs : fuseSearch fuel o keys ts fs l = .ok (.formatted co))
    (hco : co ≠ [])
    (hkl : keysLoop o keys ts fs (fuel + 1) (.obj fields) 0
      (initWeights, initState) = .ok (w1, initState))
    (him : o.includeMatches = false) (his : o.includeScore = false)
    (hid : o.id = none) :
    fuseSearch (fuel + 1) o keys ts fs [.obj fields] =
      .ok (.formatted [.plain (objAssignKey (.obj fields) o.recursiveKey
        (searchOutputToJs (.formatted co)))]) ∧
    (∀ k, k ≠ o.recursiveKey →
      objGet (objAssignKey (.obj fields) o.recursiveKey
        (searchOutputToJs (.formatted co))) k = objGet (.obj fields) k) ∧
    objGet (objAssignKey (.obj fields) o.recursiveKey
      (searchOutputToJs (.formatted co))) o.recursiveKey =
      searchOutputToJs (.formatted co) := by
  refine ⟨?_, fun k hk => objGet_assign_ne fields o.recursiveKey _ k hk,
    objGet_assign_eq fields o.recursiveKey _⟩
  rw [fuseSearch_structured fuel o keys ts fs [.obj fields] rfl]
  have hlen : l.length > 0 := List.length_pos.mpr hl
  have htru : soLenTruthy (.formatted co) = true := by
    simp [soLenTruthy, List.isEmpty_eq_false, hco]
  have hsplice : spliceChild o (.obj fields) (.formatted co) 0 initState =
      ⟨rmSet initState.resultMap 0
        ⟨objAssignKey (.obj fields) o.recursiveKey
          (searchOutputToJs (.formatted co)), [], none⟩,
        initState.order ++ [0]⟩ := by
    simp [spliceChild, rmGet, initState, htru]
  have hloop : recordsLoop o keys (fuseSearch fuel o keys ts fs) ts fs
      (fuel + 1) [.obj fields] 0 (initWeights, initState) =
      .ok (w1, ⟨rmSet initState.resultMap 0
        ⟨objAssignKey (.obj fields) o.recursiveKey
          (searchOutputToJs (.formatted co)), [], none⟩,
        initState.order ++ [0]⟩) := by
    simp only [recordsLoop, hkl, hrec, if_true, ite_true, hchild, hlen,
      hcs, hsplice, Bind.bind, Except.bind, Except.map]
  have hagg : aggregateScore (some w1) ([] : List FieldResult) = 0 := by
    simp [aggregateScore]
  have hsr : ∀ r : RecordResult, sortResults [r] = [r] := by
    intro r
    rfl
  have hmat : List.filterMap
      (rmGet (rmSet initState.resultMap 0
        ⟨objAssignKey (.obj fields) o.recursiveKey
          (searchOutputToJs (.formatted co)), [], none⟩))
      (initState.order ++ [0]) =
      [⟨objAssignKey (.obj fields) o.recursiveKey
        (searchOutputToJs (.formatted co)), [], none⟩] := by
    simp [initState, rmSet, rmGet]
  simp only [rankedResults]
  rw [hloop]
  simp only [Bind.bind, Except.bind, materialize, computeScore, hmat,
    List.map_cons, List.map_nil, hagg, hsr, ite_self, Except.map]
  simp [formatResults, formatOne, him, his, hid]

/-- C7 witness: a parent whose `"name"` does not match but one of whose two
children does: the parent appears in the output with the child results
(only the matching child) spliced under `"children"`, its `"name"`
untouched. -/
theorem C7_witness :
    fuseSearch 2 optRec [KeySpec.plain "name"] [] (eqSearcher "x")
      [JsVal.obj [("name", JsVal.str "zzz"),
        ("children", JsVal.arr [JsVal.obj [("name", JsVal.str "x")],
          JsVal.obj [("name", JsVal.str "qq")]])]] =
      .ok (.formatted [.plain (JsVal.obj [("name", JsVal.str "zzz"),
        ("children", JsVal.arr [JsVal.obj [("name", JsVal.str "x")]])])]) := by
  have hzx : ("zzz" : String) ≠ "x" := by decide
  have hqx : ("qq" : String) ≠ "x" := by decide
  have ht : optRec.tokenize = false := rfl
  have hm : optRec.matchAllTokens = false := rfl
  have hss : optRec.shouldSort = true := rfl
  have hre : optRec.recursiveEnabled = true := rfl
  have hrk : optRec.recursiveKey = "children" := rfl
  have hiM : optRec.includeMatches = false := rfl
  have hiS : optRec.includeScore = false := rfl
  have hiD : optRec.id = none := rfl
  have hgx : optRec.getF (JsVal.obj [("name", JsVal.str "x")]) "name" =
      JsVal.str "x" := rfl
  have hgq : optRec.getF (JsVal.obj [("name", JsVal.str "qq")]) "name" =
      JsVal.str "qq" := rfl
  have hcx : objGet (JsVal.obj [("name", JsVal.str "x")]) "children" =
      JsVal.undefined := rfl
  have hcq : objGet (JsVal.obj [("name", JsVal.str "qq")]) "children" =
      JsVal.undefined := rfl
  have hcs : fuseSearch 1 optRec [KeySpec.plain "name"] [] (eqSearcher "x")
      [JsVal.obj [("name", JsVal.str "x")],
        JsVal.obj [("name", JsVal.str "qq")]] =
      .ok (.formatted [FormattedItem.plain
        (JsVal.obj [("name", JsVal.str "x")])]) := by
    norm_num [fuseSearch, rankedResults, recordsLoop, keysLoop, processKey,
      analyzeVal, analyzeString, ht, hm, hss, hre, hrk, hgx, hgq, hcx, hcq,
      hqx, hiM, hiS, hiD, eqSearcher, rmGet, rmSet, initState, materialize,
      computeScore,
      aggregateScore, lookupWeight, wset, initWeights, sortResults, scoreD,
      List.insertionSort, List.orderedInsert, formatResults, formatOne,
      Bind.bind, Except.bind, pure, Except.pure, Except.map]
  have hkl : keysLoop optRec [KeySpec.plain "name"] [] (eqSearcher "x") 2
      (JsVal.obj [("name", JsVal.str "zzz"),
        ("children", JsVal.arr [JsVal.obj [("name", JsVal.str "x")],
          JsVal.obj [("name", JsVal.str "qq")]])]) 0
      (initWeights, initState) =
      .ok (wset initWeights "name" 1, initState) := by
    have hgz : optRec.getF (JsVal.obj [("name", JsVal.str "zzz"),
        ("children", JsVal.arr [JsVal.obj [("name", JsVal.str "x")],
          JsVal.obj [("name", JsVal.str "qq")]])]) "name" =
        JsVal.str "zzz" := rfl
    norm_num [keysLoop, processKey, analyzeVal, analyzeString, ht, hm, hgz,
      hzx, eqSearcher, initState, Bind.bind, Except.bind, pure, Except.pure]
  exact (C7_recursive_splice 1 optRec [KeySpec.plain "name"] []
    (eqSearcher "x")
    [("name", JsVal.str "zzz"),
      ("children", JsVal.arr [JsVal.obj [("name", JsVal.str "x")],
        JsVal.obj [("name", JsVal.str "qq")]])]
    [JsVal.obj [("name", JsVal.str "x")],
      JsVal.obj [("name", JsVal.str "qq")]]
    [FormattedItem.plain (JsVal.obj [("name", JsVal.str "x")])]
    (wset initWeights "name" 1)
    rfl rfl (by simp) hcs (by simp) hkl rfl rfl rfl).1

/-- Helper: a key object declared with weight exactly `1` is processed
identically to the plain string key: the validation passes (`1 ≤ 0` and
`1 > 1` are both false) and the registered weight is `(1 - 1) || 1 = 1`. -/
theorem processKey_weight_one (o : Options) (ts : List Searcher)
    (fs : Searcher) (af : Nat) (item : JsVal) (i : Nat)
    (acc : (String → ℚ) × SearchState) (k : String) :
    processKey o ts fs af item i acc (KeySpec.weighted k 1) =
      processKey o ts fs af item i acc (KeySpec.plain k) := by
  simp only [processKey]
  rw [if_neg (by norm_num)]
  rw [show storedWeight 1 = (1 : ℚ) by norm_num [storedWeight]]

/-- Helper: the key loop does not distinguish a weight-`1` key object from
the plain string key, whatever surrounds it. -/
theorem keysLoop_weight_one (o : Options) (ts : List Searcher)
    (fs : Searcher) (af : Nat) (item : JsVal) (i : Nat) :
    ∀ (pre : List KeySpec) (post : List KeySpec) (k : String)
      (acc : (String → ℚ) × SearchState),
      keysLoop o (pre ++ KeySpec.weighted k 1 :: post) ts fs af item i acc =
        keysLoop o (pre ++ KeySpec.plain k :: post) ts fs af item i acc := by
  intro pre
  induction pre with
  | nil =>
    intro post k acc
    simp only [List.nil_append, keysLoop, List.foldlM_cons,
      processKey_weight_one]
  | cons p ps ih =>
    intro post k acc
    simp only [List.cons_append, keysLoop, List.foldlM_cons]
    cases hp : processKey o ts fs af item i acc p with
    | error e => rfl
    | ok acc2 =>
      simp only [Bind.bind, Except.bind]
      have := ih post k acc2
      simpa only [keysLoop] using this

/-- Helper: the record loop does not distinguish a weight-`1` key object
from the plain string key (with the same child-search function). -/
theorem recordsLoop_weight_one (o : Options)
    (cs : List JsVal → Except FuseErr SearchOutput) (ts : List Searcher)
    (fs : Searcher) (af : Nat) (pre post : List KeySpec) (k : String) :
    ∀ (items : List JsVal) (i : Nat) (acc : (String → ℚ) × SearchState),
      recordsLoop o (pre ++ KeySpec.weighted k 1 :: post) cs ts fs af items
        i acc =
      recordsLoop o (pre ++ KeySpec.plain k :: post) cs ts fs af items i
        acc := by
  intro items
  induction items with
  | nil => intro i acc; rfl
  | cons item rest ih =>
    intro i acc
    simp only [recordsLoop, keysLoop_weight_one]
    cases hkl : keysLoop o (pre ++ KeySpec.plain k :: post) ts fs af item i
        acc with
    | error e => rfl
    | ok acc2 =>
      simp only [Bind.bind, Except.bind, ih]

/-- C10: configuring a searched key as an object with weight exactly `1`
produces search results identical to configuring the same key as a plain
string, in any position among the keys, for every collection, searcher set
and recursion depth: the explicit weight `1` passes validation and
registers the same weight `1` (`(1 - 1) || 1 = 1`), so validation and
aggregation cannot distinguish the two configurations. -/
theorem C10_weight_one_equiv :
    ∀ (fuel : Nat) (o : Options) (ts : List Searcher) (fs : Searcher)
      (pre post : List KeySpec) (k : String) (list : List JsVal),
      fuseSearch fuel o (pre ++ KeySpec.weighted k 1 :: post) ts fs list =
        fuseSearch fuel o (pre ++ KeySpec.plain k :: post) ts fs list := by
  intro fuel
  induction fuel with
  | zero => intro o ts fs pre post k list; rfl
  | succ fuel ih =>
    intro o ts fs pre post k list
    have hcs : fuseSearch fuel o (pre ++ KeySpec.weighted k 1 :: post) ts
        fs = fuseSearch fuel o (pre ++ KeySpec.plain k :: post) ts fs :=
      funext (fun l => ih o ts fs pre post k l)
    cases list with
    | nil => rfl
    | cons v tl =>
      cases v with
      | str s => rfl
      | undefined =>
        rw [fuseSearch_structured fuel o (pre ++ KeySpec.weighted k 1 ::
            post) ts fs (JsVal.undefined :: tl) rfl,
          fuseSearch_structured fuel o (pre ++ KeySpec.plain k :: post) ts
            fs (JsVal.undefined :: tl) rfl, hcs]
        simp only [rankedResults, recordsLoop_weight_one]
      | null =>
        rw [fuseSearch_structured fuel o (pre ++ KeySpec.weighted k 1 ::
            post) ts fs (JsVal.null :: tl) rfl,
          fuseSearch_structured fuel o (pre ++ KeySpec.plain k :: post) ts
            fs (JsVal.null :: tl) rfl, hcs]
        simp only [rankedResults, recordsLoop_weight_one]
      | bool b =>
        rw [fuseSearch_structured fuel o (pre ++ KeySpec.weighted k 1 ::
            post) ts fs (JsVal.bool b :: tl) rfl,
          fuseSearch_structured fuel o (pre ++ KeySpec.plain k :: post) ts
            fs (JsVal.bool b :: tl) rfl, hcs]
        simp only [rankedResults, recordsLoop_weight_one]
      | num q =>
        rw [fuseSearch_structured fuel o (pre ++ KeySpec.weighted k 1 ::
            post) ts fs (JsVal.num q :: tl) rfl,
          fuseSearch_structured fuel o (pre ++ KeySpec.plain k :: post) ts
            fs (JsVal.num q :: tl) rfl, hcs]
        simp only [rankedResults, recordsLoop_weight_one]
      | arr l =>
        rw [fuseSearch_structured fuel o (pre ++ KeySpec.weighted k 1 ::
            post) ts fs (JsVal.arr l :: tl) rfl,
          fuseSearch_structured fuel o (pre ++ KeySpec.plain k :: post) ts
            fs (JsVal.arr l :: tl) rfl, hcs]
        simp only [rankedResults, recordsLoop_weight_one]
      | obj fl =>
        rw [fuseSearch_structured fuel o (pre ++ KeySpec.weighted k 1 ::
            post) ts fs (JsVal.obj fl :: tl) rfl,
          fuseSearch_structured fuel o (pre ++ KeySpec.plain k :: post) ts
            fs (JsVal.obj fl :: tl) rfl, hcs]
        simp only [rankedResults, recordsLoop_weight_one]
